import Mathlib

/-!
Verification of the `lazy_catch` incremental-computation runtime.

The Rust sources (`src/lib.rs`, `src/var.rs`, `src/val.rs`) are embedded
shallowly:

* versions (`SystemVersion`, a `NonZeroU64`) become `Nat` with the u64
  overflow bound made explicit in `versionInc`;
* the dependency-tracking transaction `Update` becomes a record of its four
  fields, with `Update.get` / `Update.update` / `Update.updateWithOld`
  translated clause by clause (the `Bool` component of the result records
  whether the `produce` closure was invoked, i.e. whether `f()` ran);
* `Var`, `Val` and `SyncVal` become explicit state records, with the panics
  of the Rust code (`assert_eq!` id checks, the reentrancy `panic!`, the
  `try_lock().expect(..)` and the final `unwrap()`) surfaced as `Except`
  errors;
* a deep graph model (`GSystem`) with fuel-bounded recursive reads covers
  whole-system properties (version monotonicity invariant, cycle detection).
-/

/-- Largest value of a `NonZeroU64` (`u64::MAX`). -/
def UMAX : Nat := 2 ^ 64 - 1

/-- `SystemVersion::inc`: `checked_add(1)` on a `NonZeroU64`, `unwrap`ped at
the call site; `none` models the overflow panic. -/
def versionInc (v : Nat) : Option Nat :=
  if v + 1 ≤ UMAX then some (v + 1) else none

/-- `System`: an id plus the current version (`SystemVersion::new` starts
at 1). -/
structure Sys where
  id : Nat
  version : Nat
  deriving DecidableEq, Repr

/-- `System::new`: fresh id, version 1. -/
def Sys.new (id : Nat) : Sys := { id := id, version := 1 }

/-- `System::modify`: increments the version (panicking on overflow) and
hands out a mutation window carrying the already-advanced version. -/
def Sys.modify (s : Sys) : Option Sys :=
  (versionInc s.version).map fun v => { s with version := v }

/-- The version-accumulation step of `Update::get`:
`if let Some(old) = self.update_version { if old < version { set } } else { set }`. -/
def accVersion (acc : Option Nat) (version : Nat) : Option Nat :=
  match acc with
  | some old => if old < version then some version else some old
  | none => some version

/-- `Update<'s, T>`: the system's current version stands in for the `&System`
borrow (the only thing `update`/`update_with_old` read from it), plus the
three data fields of the struct. -/
structure Update (T : Type) where
  systemVersion : Nat
  currentVersion : Option Nat
  updateVersion : Option Nat
  receiver : Option (Nat × T)

/-- `Update::new(system, current_version, receiver)`. -/
def Update.new (systemVersion : Nat) (currentVersion : Option Nat)
    (receiver : Option (Nat × T)) : Update T :=
  { systemVersion := systemVersion, currentVersion := currentVersion,
    updateVersion := none, receiver := receiver }

/-- `Update::get`: version bookkeeping of a dependency read that observed
`version` (the value returned to the closure is not tracked here). -/
def Update.get (u : Update T) (version : Nat) : Update T :=
  { u with updateVersion := accVersion u.updateVersion version }

/-- `Update::update`: the first component is the final contents of the
receiver slot, the second records whether `f()` was invoked. -/
def Update.update (u : Update T) (f : Unit → T) : Option (Nat × T) × Bool :=
  let uv := u.updateVersion.getD u.systemVersion
  match u.currentVersion with
  | some cv => if uv ≤ cv then (u.receiver, false) else (some (uv, f ()), true)
  | none => (some (uv, f ()), true)

/-- `Update::update_with_old`: as `update`, but `f` receives the previous
value taken out of the receiver. -/
def Update.updateWithOld (u : Update T) (f : Option T → T) :
    Option (Nat × T) × Bool :=
  let uv := u.updateVersion.getD u.systemVersion
  match u.currentVersion with
  | some cv =>
      if uv ≤ cv then (u.receiver, false)
      else (some (uv, f (u.receiver.map Prod.snd)), true)
  | none => (some (uv, f (u.receiver.map Prod.snd)), true)

/-- The effective version `update`/`update_with_old` compute:
`self.update_version.unwrap_or(self.system().version())`. -/
def Update.effective (u : Update T) : Nat :=
  u.updateVersion.getD u.systemVersion

/-- The panics of `var.rs` / `val.rs`, surfaced as error values:
`idMismatch` is the `assert_eq!` in `check_system`/`check_modify`;
`recursion` is `panic!("Val update recursion")`;
`lockFail` is `try_lock().expect("Val update recursion or poison")`;
`noValue` is the final `unwrap()` on an empty committed slot;
`runPanic` models a panic raised inside the recompute closure itself. -/
inductive VErr where
  | idMismatch
  | recursion
  | lockFail
  | noValue
  | runPanic
  deriving DecidableEq, Repr

/-- `Var<T>`: owning system id plus the timestamped value behind the
`UnsafeCell`. -/
structure VarS (T : Type) where
  systemId : Nat
  version : Nat
  value : T
  deriving DecidableEq, Repr

/-- `Var::new(system, value)`: stamped at the system's current version. -/
def VarS.new (s : Sys) (x : T) : VarS T :=
  { systemId := s.id, version := s.version, value := x }

/-- `Var::get_value` (the `SystemNode` impl): id check, then return the
stored `(version, value)`. -/
def VarS.getValue (v : VarS T) (sysId : Nat) : Except VErr (Nat × T) :=
  if sysId ≠ v.systemId then .error .idMismatch
  else .ok (v.version, v.value)

/-- `Var::modify` followed by the caller's assignment of `x` through the
returned `&mut T`: id check against the window, stamp the window's
(already advanced) version, overwrite the value. -/
def VarS.modifyWrite (v : VarS T) (windowId windowVersion : Nat) (x : T) :
    Except VErr (VarS T) :=
  if windowId ≠ v.systemId then .error .idMismatch
  else .ok { v with version := windowVersion, value := x }

/-- The observable behaviour of a `FnMut(Update<T>)` recompute closure, as
seen from `Val::get_value`: given the system's version and the committed
slot it is handed (`Update::new(system, value.as_ref().map(..), value)`),
it either panics (`none`) or finishes leaving the receiver slot in some
state (`some receiver`). -/
def RunFn (T : Type) : Type := Nat → Option (Nat × T) → Option (Option (Nat × T))

/-- Mutable state of a `Val<T, F>` (and, with `lock` read as "mutex held or
poisoned", of a `SyncVal<T, F>`): owning system id, `check_version`,
reentrancy guard, committed `(version, value)` slot. -/
structure ValS (T : Type) where
  systemId : Nat
  checkVersion : Option Nat
  lock : Bool
  committed : Option (Nat × T)
  deriving DecidableEq, Repr

/-- `Val::new`. -/
def ValS.new (s : Sys) : ValS T :=
  { systemId := s.id, checkVersion := none, lock := false, committed := none }

/-- `Val::get_value`, clause by clause. The `Bool` component records whether
the recompute closure was invoked. On a closure panic (`run … = none`) the
state where the panic unwinds is returned: `lock` was set to `true` and is
never reset (`lock.set(false)` is only reached on normal return). -/
def valGet (run : RunFn T) (sysId sysV : Nat) (s : ValS T) :
    ValS T × Bool × Except VErr (Nat × T) :=
  if sysId ≠ s.systemId then (s, false, .error .idMismatch)
  else if s.checkVersion ≠ some sysV then
    if s.lock then (s, false, .error .recursion)
    else
      let s1 := { s with lock := true }
      match run sysV s1.committed with
      | none => (s1, true, .error .runPanic)
      | some newC =>
        let s2 := { s1 with
          committed := newC
          checkVersion := some sysV
          lock := false }
        match newC with
        | none => (s2, true, .error .noValue)
        | some vv => (s2, true, .ok vv)
  else
    match s.committed with
    | none => (s, false, .error .noValue)
    | some vv => (s, false, .ok vv)

/-- `SyncVal::get_value`. Differences from `valGet` mirror the source: a held
lock makes `try_lock()` fail, which `.expect(..)` turns into a panic
(`lockFail`) — the call never blocks; after acquiring the lock the staleness
check is repeated; the final `unwrap()` runs after the guard is dropped. On a
closure panic the guard is dropped but the mutex is poisoned, which makes
every later `try_lock()` fail like a held lock, so the poisoned mutex is
modelled by leaving `lock := true`. -/
def syncValGet (run : RunFn T) (sysId sysV : Nat) (s : ValS T) :
    ValS T × Bool × Except VErr (Nat × T) :=
  if sysId ≠ s.systemId then (s, false, .error .idMismatch)
  else if s.checkVersion ≠ some sysV then
    if s.lock then (s, false, .error .lockFail)
    else if s.checkVersion ≠ some sysV then
      let s1 := { s with lock := true }
      match run sysV s1.committed with
      | none => (s1, true, .error .runPanic)
      | some newC =>
        let s2 := { s1 with
          committed := newC
          checkVersion := some sysV
          lock := false }
        match newC with
        | none => (s2, true, .error .noValue)
        | some vv => (s2, true, .ok vv)
    else
      match s.committed with
      | none => (s, false, .error .noValue)
      | some vv => (s, false, .ok vv)
  else
    match s.committed with
    | none => (s, false, .error .noValue)
    | some vv => (s, false, .ok vv)

/-- Repeatedly read a `Val` at a fixed system version, summing how many of
the reads invoked the recompute closure (the spec's "call counter"). -/
def valReadCount (run : RunFn T) (sysId sysV : Nat) :
    Nat → ValS T → Nat × ValS T
  | 0, s => (0, s)
  | k + 1, s =>
    let r := valGet run sysId sysV s
    let rest := valReadCount run sysId sysV k r.1
    ((if r.2.1 then 1 else 0) + rest.1, rest.2)

/-- As `valReadCount`, for `SyncVal`. -/
def syncReadCount (run : RunFn T) (sysId sysV : Nat) :
    Nat → ValS T → Nat × ValS T
  | 0, s => (0, s)
  | k + 1, s =>
    let r := syncValGet run sysId sysV s
    let rest := syncReadCount run sysId sysV k r.1
    ((if r.2.1 then 1 else 0) + rest.1, rest.2)

lemma accVersion_some (a v : Nat) : accVersion (some a) v = some (Nat.max a v) := by
  simp only [accVersion, Nat.max_def]
  split
  next h => rw [if_pos h.le]
  next h =>
    split
    next h2 => congr 1; omega
    next h2 => rfl

lemma foldl_accVersion (l : List Nat) :
    ∀ a : Nat, List.foldl accVersion (some a) l = some (List.foldl Nat.max a l) := by
  induction l with
  | nil => intro a; rfl
  | cons v vs ih => intro a; rw [List.foldl_cons, accVersion_some, ih, List.foldl_cons]

lemma updateVersion_foldl_get (l : List Nat) :
    ∀ u : Update T, (List.foldl Update.get u l).updateVersion
      = List.foldl accVersion u.updateVersion l := by
  induction l with
  | nil => intro u; rfl
  | cons v vs ih => intro u; rw [List.foldl_cons, ih]; rfl

/-- C1: for a commit on behalf of a memoized node, the effective version is
the maximum version accumulated over the dependency reads done through
`Update.get` (or the context's current version when none was read); with a
previously committed version `V_prev` and `effective ≤ V_prev` the stored
pair is left unchanged and the produce closure is not invoked; otherwise the
closure runs and `(effective, produce())` is stored. `Update.updateWithOld`
follows the same version logic. -/
theorem claim1_update_commit_logic (T : Type) :
    (∀ (sv : Nat) (cv : Option Nat) (rc : Option (Nat × T)) (v : Nat) (vs : List Nat),
        (List.foldl Update.get (Update.new sv cv rc) (v :: vs)).updateVersion
          = some (List.foldl Nat.max v vs))
    ∧ (∀ u : Update T, u.updateVersion = none → u.effective = u.systemVersion)
    ∧ (∀ (u : Update T) (m : Nat), u.updateVersion = some m → u.effective = m)
    ∧ (∀ (u : Update T) (cv : Nat) (f : Unit → T) (g : Option T → T),
        u.currentVersion = some cv → u.effective ≤ cv →
          u.update f = (u.receiver, false)
          ∧ u.updateWithOld g = (u.receiver, false))
    ∧ (∀ (u : Update T) (cv : Nat) (f : Unit → T) (g : Option T → T),
        u.currentVersion = some cv → cv < u.effective →
          u.update f = (some (u.effective, f ()), true)
          ∧ u.updateWithOld g = (some (u.effective, g (u.receiver.map Prod.snd)), true)) := by
  refine ⟨?_, ?_, ?_, ?_, ?_⟩
  · intro sv cv rc v vs
    rw [updateVersion_foldl_get, List.foldl_cons]
    show List.foldl accVersion (accVersion none v) vs = _
    rw [show accVersion none v = some v from rfl, foldl_accVersion]
  · intro u h; simp [Update.effective, h]
  · intro u m h; simp [Update.effective, h]
  · intro u cv f g hcv heff
    constructor
    · simp only [Update.update, hcv]
      rw [if_pos]; exact heff
    · simp only [Update.updateWithOld, hcv]
      rw [if_pos]; exact heff
  · intro u cv f g hcv heff
    simp only [Update.effective] at heff
    constructor
    · simp only [Update.update, hcv, Update.effective]
      rw [if_neg]; omega
    · simp only [Update.updateWithOld, hcv, Update.effective]
      rw [if_neg]; omega

/-- C1 witness: concrete instances of each hypothesis-bearing conjunct. -/
theorem claim1_update_commit_logic_witness :
    ((List.foldl Update.get (Update.new 5 none none) [3, 7, 2] : Update Nat).updateVersion
        = some 7)
    ∧ ((Update.mk 6 (some 4) (some 3) (some (2, 10)) : Update Nat).update
        (fun _ => 42) = (some (2, 10), false))
    ∧ ((Update.mk 6 (some 4) (some 9) (some (2, 10)) : Update Nat).updateWithOld
        (fun o => o.getD 0 + 1) = (some (9, 11), true)) := by
  refine ⟨?_, ?_, ?_⟩
  · have h := (claim1_update_commit_logic Nat).1 5 none none 3 [7, 2]
    simpa using h
  · have h := ((claim1_update_commit_logic Nat).2.2.2.1
      (Update.mk 6 (some 4) (some 3) (some (2, 10))) 4
      (fun _ => 42) (fun o => o.getD 0 + 1) rfl (by decide)).1
    simpa using h
  · have h := ((claim1_update_commit_logic Nat).2.2.2.2
      (Update.mk 6 (some 4) (some 9) (some (2, 10))) 4
      (fun _ => 42) (fun o => o.getD 0 + 1) rfl (by decide)).2
    simpa using h

/-- C10: with no previously committed value, `update` and `updateWithOld`
always invoke the produce closure and store `(effective, result)`, whatever
the accumulated effective version is; `updateWithOld` passes `none` to the
closure; and a skipped commit implies a previous committed version existed. -/
theorem claim10_first_commit_always_runs (T : Type) :
    (∀ (u : Update T) (f : Unit → T) (g : Option T → T),
        u.currentVersion = none → u.receiver = none →
          u.update f = (some (u.effective, f ()), true)
          ∧ u.updateWithOld g = (some (u.effective, g none), true))
    ∧ (∀ (u : Update T) (f : Unit → T),
        (u.update f).2 = false → ∃ cv, u.currentVersion = some cv)
    ∧ (∀ (u : Update T) (g : Option T → T),
        (u.updateWithOld g).2 = false → ∃ cv, u.currentVersion = some cv) := by
  refine ⟨?_, ?_, ?_⟩
  · intro u f g hcv hrc
    constructor
    · simp [Update.update, hcv, Update.effective]
    · simp [Update.updateWithOld, hcv, hrc, Update.effective]
  · intro u f h
    match hcv : u.currentVersion with
    | some cv => exact ⟨cv, rfl⟩
    | none => simp [Update.update, hcv] at h
  · intro u g h
    match hcv : u.currentVersion with
    | some cv => exact ⟨cv, rfl⟩
    | none => simp [Update.updateWithOld, hcv] at h

/-- C10 witness: a first computation at an arbitrary accumulated version. -/
theorem claim10_first_commit_always_runs_witness :
    (Update.mk 6 none (some 3) none : Update Nat).update (fun _ => 42)
      = (some (3, 42), true)
    ∧ (Update.mk 6 none none none : Update Nat).updateWithOld
        (fun o => o.getD 7 + 1) = (some (6, 8), true) := by
  constructor
  · have h := ((claim10_first_commit_always_runs Nat).1
      (Update.mk 6 none (some 3) none) (fun _ => 42) (fun o => o.getD 7 + 1)
      rfl rfl).1
    simpa using h
  · have h := ((claim10_first_commit_always_runs Nat).1
      (Update.mk 6 none none none) (fun _ => 42) (fun o => o.getD 7 + 1)
      rfl rfl).2
    simpa using h

lemma valGet_fresh (run : RunFn T) (sysId sysV : Nat) (s : ValS T)
    (h : s.checkVersion = some sysV) :
    (valGet run sysId sysV s).1 = s ∧ (valGet run sysId sysV s).2.1 = false := by
  unfold valGet
  split
  · exact ⟨rfl, rfl⟩
  · rw [if_neg (by simp [h])]
    rcases hc : s.committed with _ | vv <;> simp [hc]

lemma syncValGet_fresh (run : RunFn T) (sysId sysV : Nat) (s : ValS T)
    (h : s.checkVersion = some sysV) :
    (syncValGet run sysId sysV s).1 = s
    ∧ (syncValGet run sysId sysV s).2.1 = false := by
  unfold syncValGet
  split
  · exact ⟨rfl, rfl⟩
  · rw [if_neg (by simp [h])]
    rcases hc : s.committed with _ | vv <;> simp [hc]

lemma valGet_stale (run : RunFn T) (sysId sysV : Nat) (s : ValS T)
    (newC : Option (Nat × T)) (hid : sysId = s.systemId)
    (hst : s.checkVersion ≠ some sysV) (hl : s.lock = false)
    (hrun : run sysV s.committed = some newC) :
    (valGet run sysId sysV s).1
      = { s with committed := newC, checkVersion := some sysV, lock := false }
    ∧ (valGet run sysId sysV s).2.1 = true := by
  obtain ⟨sid, cv0, lk, cm⟩ := s
  simp only at hid hst hl hrun
  subst hid hl
  simp only [valGet, hrun]
  simp [hst]
  cases newC <;> simp

lemma syncValGet_stale (run : RunFn T) (sysId sysV : Nat) (s : ValS T)
    (newC : Option (Nat × T)) (hid : sysId = s.systemId)
    (hst : s.checkVersion ≠ some sysV) (hl : s.lock = false)
    (hrun : run sysV s.committed = some newC) :
    (syncValGet run sysId sysV s).1
      = { s with committed := newC, checkVersion := some sysV, lock := false }
    ∧ (syncValGet run sysId sysV s).2.1 = true := by
  obtain ⟨sid, cv0, lk, cm⟩ := s
  simp only at hid hst hl hrun
  subst hid hl
  simp only [syncValGet, hrun]
  simp [hst]
  cases newC <;> simp

lemma valReadCount_fresh (run : RunFn T) (sysId sysV : Nat) (k : Nat) :
    ∀ s : ValS T, s.checkVersion = some sysV →
      valReadCount run sysId sysV k s = (0, s) := by
  induction k with
  | zero => intro s h; rfl
  | succ k ih =>
    intro s h
    have hf := valGet_fresh run sysId sysV s h
    simp only [valReadCount]
    rw [hf.1, hf.2, ih s h]
    rfl

lemma syncReadCount_fresh (run : RunFn T) (sysId sysV : Nat) (k : Nat) :
    ∀ s : ValS T, s.checkVersion = some sysV →
      syncReadCount run sysId sysV k s = (0, s) := by
  induction k with
  | zero => intro s h; rfl
  | succ k ih =>
    intro s h
    have hf := syncValGet_fresh run sysId sysV s h
    simp only [syncReadCount]
    rw [hf.1, hf.2, ih s h]
    rfl

lemma valGet_stale_invoked (run : RunFn T) (sysId sysV : Nat) (s : ValS T)
    (hid : sysId = s.systemId) (hst : s.checkVersion ≠ some sysV)
    (hl : s.lock = false) : (valGet run sysId sysV s).2.1 = true := by
  obtain ⟨sid, cv0, lk, cm⟩ := s
  simp only at hid hst hl
  subst hid hl
  simp only [valGet]
  rcases hr : run sysV cm with _ | newC <;> simp [hst, hr]
  cases newC <;> simp

lemma syncValGet_stale_invoked (run : RunFn T) (sysId sysV : Nat) (s : ValS T)
    (hid : sysId = s.systemId) (hst : s.checkVersion ≠ some sysV)
    (hl : s.lock = false) : (syncValGet run sysId sysV s).2.1 = true := by
  obtain ⟨sid, cv0, lk, cm⟩ := s
  simp only at hid hst hl
  subst hid hl
  simp only [syncValGet]
  rcases hr : run sysV cm with _ | newC <;> simp [hst, hr]
  cases newC <;> simp

/-- C2: for a `Val` or `SyncVal` read single-threadedly, the recompute
closure runs exactly once per distinct context version however many times
the node is read at that version: after a stale read whose closure returns,
`check_version` equals the context version whatever the closure left in the
committed slot, a further read at the same version does not invoke the
closure and leaves the state unchanged, and a read at any other (in
particular later) context version invokes it again. -/
theorem claim2_memoized_once_per_version (T : Type) :
    (∀ (run : RunFn T) (sysId sysV : Nat) (s : ValS T)
        (newC : Option (Nat × T)) (k : Nat),
        sysId = s.systemId → s.checkVersion ≠ some sysV → s.lock = false →
        run sysV s.committed = some newC →
        (valReadCount run sysId sysV (k + 1) s).1 = 1
        ∧ (syncReadCount run sysId sysV (k + 1) s).1 = 1)
    ∧ (∀ (run : RunFn T) (sysId sysV : Nat) (s : ValS T)
        (newC : Option (Nat × T)),
        sysId = s.systemId → s.checkVersion ≠ some sysV → s.lock = false →
        run sysV s.committed = some newC →
        ((valGet run sysId sysV s).1).checkVersion = some sysV
        ∧ ((syncValGet run sysId sysV s).1).checkVersion = some sysV)
    ∧ (∀ (run : RunFn T) (sysId sysV : Nat) (s : ValS T),
        s.checkVersion = some sysV →
        ((valGet run sysId sysV s).1 = s ∧ (valGet run sysId sysV s).2.1 = false)
        ∧ ((syncValGet run sysId sysV s).1 = s
            ∧ (syncValGet run sysId sysV s).2.1 = false))
    ∧ (∀ (run : RunFn T) (sysId sysV sysW : Nat) (s : ValS T),
        sysId = s.systemId → s.checkVersion = some sysV → sysW ≠ sysV →
        s.lock = false →
        (valGet run sysId sysW s).2.1 = true
        ∧ (syncValGet run sysId sysW s).2.1 = true) := by
  refine ⟨?_, ?_, ?_, ?_⟩
  · intro run sysId sysV s newC k hid hst hl hrun
    constructor
    · have h1 := valGet_stale run sysId sysV s newC hid hst hl hrun
      simp only [valReadCount]
      rw [h1.1, h1.2, valReadCount_fresh run sysId sysV k _ rfl]
      rfl
    · have h1 := syncValGet_stale run sysId sysV s newC hid hst hl hrun
      simp only [syncReadCount]
      rw [h1.1, h1.2, syncReadCount_fresh run sysId sysV k _ rfl]
      rfl
  · intro run sysId sysV s newC hid hst hl hrun
    constructor
    · rw [(valGet_stale run sysId sysV s newC hid hst hl hrun).1]
    · rw [(syncValGet_stale run sysId sysV s newC hid hst hl hrun).1]
  · intro run sysId sysV s h
    exact ⟨valGet_fresh run sysId sysV s h, syncValGet_fresh run sysId sysV s h⟩
  · intro run sysId sysV sysW s hid h hne hl
    have hst : s.checkVersion ≠ some sysW := by simp [h, hne, Ne.symm hne]
    exact ⟨valGet_stale_invoked run sysId sysW s hid hst hl,
      syncValGet_stale_invoked run sysId sysW s hid hst hl⟩

/-- C2 witness: three consecutive reads of a fresh-made node at version 1
invoke the closure exactly once, for both node flavours. -/
theorem claim2_memoized_once_per_version_witness :
    ((valReadCount (fun v _ => some (some (v, 99))) 0 1 3
        (ValS.new (Sys.new 0) : ValS Nat)).1 = 1)
    ∧ ((syncReadCount (fun v _ => some (some (v, 99))) 0 1 3
        (ValS.new (Sys.new 0) : ValS Nat)).1 = 1) := by
  have h := (claim2_memoized_once_per_version Nat).1
    (fun v _ => some (some (v, 99))) 0 1 (ValS.new (Sys.new 0))
    (some (1, 99)) 2 rfl (by decide) rfl rfl
  exact h

lemma modify_spec (s s' : Sys) (h : Sys.modify s = some s') :
    s'.id = s.id ∧ s'.version = s.version + 1 := by
  unfold Sys.modify versionInc at h
  split at h
  · simp only [Option.map_some'] at h
    cases h
    exact ⟨rfl, rfl⟩
  · simp at h

/-- C4: writing `x` to an input cell through a mutation window and then
reading the cell through the context yields `x` stamped with the window's
version, which is the context version advanced at window creation. -/
theorem claim4_read_your_writes (T : Type) :
    ∀ (sys sys' : Sys) (v : VarS T) (x : T),
      v.systemId = sys.id → Sys.modify sys = some sys' →
      sys'.id = sys.id
      ∧ sys'.version = sys.version + 1
      ∧ VarS.modifyWrite v sys'.id sys'.version x
          = .ok { v with version := sys'.version, value := x }
      ∧ VarS.getValue { v with version := sys'.version, value := x } sys'.id
          = .ok (sys'.version, x) := by
  intro sys sys' v x hown hm
  obtain ⟨hid, hver⟩ := modify_spec sys sys' hm
  refine ⟨hid, hver, ?_, ?_⟩
  · rw [VarS.modifyWrite, if_neg (by simp [hid, hown])]
  · rw [VarS.getValue, if_neg (by simp [hid, hown])]

/-- C4 witness: create a system, a cell, open a window, write 10, read it. -/
theorem claim4_read_your_writes_witness :
    Sys.modify (Sys.new 3) = some ⟨3, 2⟩
    ∧ VarS.modifyWrite (VarS.new (Sys.new 3) (0 : Nat)) 3 2 10 = .ok ⟨3, 2, 10⟩
    ∧ VarS.getValue (⟨3, 2, 10⟩ : VarS Nat) 3 = .ok (2, 10) := by
  have h := claim4_read_your_writes Nat (Sys.new 3) ⟨3, 2⟩
    (VarS.new (Sys.new 3) (0 : Nat)) 10 rfl (by decide)
  exact ⟨by decide, h.2.2.1, h.2.2.2⟩

/-- C8: every operation checks the caller's context or window id against the
id the node or cell was created with and fails fatally on mismatch, while
the matching id lets the operation go through. -/
theorem claim8_context_id_checks (T : Type) :
    (∀ (v : VarS T) (b : Nat), b ≠ v.systemId →
        v.getValue b = .error .idMismatch)
    ∧ (∀ v : VarS T, v.getValue v.systemId = .ok (v.version, v.value))
    ∧ (∀ (v : VarS T) (b w : Nat) (x : T), b ≠ v.systemId →
        v.modifyWrite b w x = .error .idMismatch)
    ∧ (∀ (v : VarS T) (w : Nat) (x : T),
        v.modifyWrite v.systemId w x = .ok { v with version := w, value := x })
    ∧ (∀ (run : RunFn T) (b sysV : Nat) (s : ValS T), b ≠ s.systemId →
        valGet run b sysV s = (s, false, .error .idMismatch)
        ∧ syncValGet run b sysV s = (s, false, .error .idMismatch))
    ∧ (∀ (run : RunFn T) (sysV : Nat) (s : ValS T) (vv : Nat × T),
        s.checkVersion = some sysV → s.committed = some vv →
        valGet run s.systemId sysV s = (s, false, .ok vv)
        ∧ syncValGet run s.systemId sysV s = (s, false, .ok vv)) := by
  refine ⟨?_, ?_, ?_, ?_, ?_, ?_⟩
  · intro v b hb; rw [VarS.getValue, if_pos hb]
  · intro v; rw [VarS.getValue, if_neg (by simp)]
  · intro v b w x hb; rw [VarS.modifyWrite, if_pos hb]
  · intro v w x; rw [VarS.modifyWrite, if_neg (by simp)]
  · intro run b sysV s hb
    constructor
    · rw [valGet, if_pos hb]
    · rw [syncValGet, if_pos hb]
  · intro run sysV s vv hcv hcm
    constructor
    · rw [valGet, if_neg (by simp), if_neg (by simp [hcv]), hcm]
    · rw [syncValGet, if_neg (by simp), if_neg (by simp [hcv]), hcm]

/-- C8 witness: cross-context reads and writes fail, matching ones succeed,
on concrete nodes of two systems. -/
theorem claim8_context_id_checks_witness :
    VarS.getValue (VarS.new (Sys.new 0) (5 : Nat)) 1 = .error .idMismatch
    ∧ VarS.getValue (VarS.new (Sys.new 0) (5 : Nat)) 0 = .ok (1, 5)
    ∧ VarS.modifyWrite (VarS.new (Sys.new 0) (5 : Nat)) 1 2 7
        = .error .idMismatch
    ∧ valGet (fun _ c => some c) 1 1 (ValS.new (Sys.new 0) : ValS Nat)
        = (ValS.new (Sys.new 0), false, .error .idMismatch)
    ∧ syncValGet (fun _ c => some c) 1 1 (ValS.new (Sys.new 0) : ValS Nat)
        = (ValS.new (Sys.new 0), false, .error .idMismatch)
    ∧ valGet (fun _ c => some c) 0 1 (⟨0, some 1, false, some (1, 9)⟩ : ValS Nat)
        = (⟨0, some 1, false, some (1, 9)⟩, false, .ok (1, 9)) := by
  have h1 := (claim8_context_id_checks Nat).1 (VarS.new (Sys.new 0) 5) 1 (by decide)
  have h2 := (claim8_context_id_checks Nat).2.1 (VarS.new (Sys.new 0) 5)
  have h3 := (claim8_context_id_checks Nat).2.2.1 (VarS.new (Sys.new 0) 5) 1 2 7
    (by decide)
  have h5 := (claim8_context_id_checks Nat).2.2.2.2.1 (fun _ c => some c) 1 1
    (ValS.new (Sys.new 0)) (by decide)
  have h6 := (claim8_context_id_checks Nat).2.2.2.2.2 (fun _ c => some c) 1
    (⟨0, some 1, false, some (1, 9)⟩ : ValS Nat) (1, 9) rfl rfl
  exact ⟨h1, h2, h3, h5.1, h5.2, h6.1⟩

/-- C9: reading a node that has never committed a value, whose recompute
closure returns leaving the receiver slot still empty, hits the final
`unwrap()` and fails fatally (`noValue`); likewise a fresh-marked node with
an empty slot. This models a panic, not a recoverable error value. -/
theorem claim9_missing_commit_is_fatal (T : Type) :
    (∀ (run : RunFn T) (sysId sysV : Nat) (s : ValS T),
        sysId = s.systemId → s.checkVersion ≠ some sysV → s.lock = false →
        s.committed = none → run sysV none = some none →
        (valGet run sysId sysV s).2.2 = .error .noValue
        ∧ (syncValGet run sysId sysV s).2.2 = .error .noValue)
    ∧ (∀ (run : RunFn T) (sysV : Nat) (s : ValS T),
        s.checkVersion = some sysV → s.committed = none →
        (valGet run s.systemId sysV s).2.2 = .error .noValue
        ∧ (syncValGet run s.systemId sysV s).2.2 = .error .noValue) := by
  constructor
  · intro run sysId sysV s hid hst hl hcm hrun
    obtain ⟨sid, cv0, lk, cm⟩ := s
    simp only at hid hst hl hcm
    subst hid hl hcm
    constructor
    · simp [valGet, hst, hrun]
    · simp [syncValGet, hst, hrun]
  · intro run sysV s hcv hcm
    constructor
    · rw [valGet, if_neg (by simp), if_neg (by simp [hcv]), hcm]
    · rw [syncValGet, if_neg (by simp), if_neg (by simp [hcv]), hcm]

/-- C9 witness: a closure that never commits leaves the read to fail. -/
theorem claim9_missing_commit_is_fatal_witness :
    (valGet (fun _ c => some c) 0 1 (ValS.new (Sys.new 0) : ValS Nat)).2.2
      = .error .noValue
    ∧ (syncValGet (fun _ c => some c) 0 1 (ValS.new (Sys.new 0) : ValS Nat)).2.2
      = .error .noValue := by
  have h := (claim9_missing_commit_is_fatal Nat).1 (fun _ c => some c) 0 1
    (ValS.new (Sys.new 0)) rfl (by decide) rfl rfl rfl
  exact h

/-- C6 counterexample: `Val::get_value` sets `lock` before invoking the
recompute closure but only resets it on the normal-return path; after a
closure that fails (panics), the flag is left set, and a subsequent read of
the node — here at a later context version — spuriously reports the
reentrancy error instead of retrying the recompute. -/
theorem claim6_lock_reset_counterexample :
    ((valGet (fun _ _ => none) 0 1 (ValS.new (Sys.new 0) : ValS Nat)).1).lock
        = true
    ∧ (valGet (fun _ _ => none) 0 1 (ValS.new (Sys.new 0) : ValS Nat)).2.2
        = .error .runPanic
    ∧ valGet (fun v _ => some (some (v, 1))) 0 2
        ((valGet (fun _ _ => none) 0 1 (ValS.new (Sys.new 0) : ValS Nat)).1)
      = ((valGet (fun _ _ => none) 0 1 (ValS.new (Sys.new 0) : ValS Nat)).1,
         false, .error .recursion) := by
  exact ⟨rfl, rfl, rfl⟩

/-- C6 amended: the reentrancy flag is set immediately before invoking the
recompute closure and reset when it returns normally; on a failure inside
the closure the flag is not reset, so an aborted recomputation wedges the
node: every later read that finds it stale reports the reentrancy error. -/
theorem claim6_lock_reset_amended (T : Type) :
    ∀ (run : RunFn T) (sysId sysV : Nat) (s : ValS T),
      sysId = s.systemId → s.checkVersion ≠ some sysV → s.lock = false →
      (∀ newC, run sysV s.committed = some newC →
        ((valGet run sysId sysV s).1).lock = false)
      ∧ (run sysV s.committed = none →
          (valGet run sysId sysV s).1 = { s with lock := true }
          ∧ (valGet run sysId sysV s).2.2 = .error .runPanic
          ∧ ∀ (run2 : RunFn T) (sysW : Nat),
              s.checkVersion ≠ some sysW →
              valGet run2 sysId sysW { s with lock := true }
                = ({ s with lock := true }, false, .error .recursion)) := by
  intro run sysId sysV s hid hst hl
  constructor
  · intro newC hrun
    rw [(valGet_stale run sysId sysV s newC hid hst hl hrun).1]
  · intro hrun
    obtain ⟨sid, cv0, lk, cm⟩ := s
    simp only at hid hst hl hrun
    subst hid hl
    refine ⟨?_, ?_, ?_⟩
    · simp [valGet, hst, hrun]
    · simp [valGet, hst, hrun]
    · intro run2 sysW hstW
      simp only at hstW
      simp [valGet, hstW]

/-- C6 amended witness: a panicking closure wedges a concrete node. -/
theorem claim6_lock_reset_amended_witness :
    (valGet (fun _ _ => none) 0 1 (ValS.new (Sys.new 0) : ValS Nat)).1
      = { ValS.new (Sys.new 0) with lock := true }
    ∧ valGet (fun v _ => some (some (v, 1))) 0 2
        { (ValS.new (Sys.new 0) : ValS Nat) with lock := true }
      = ({ (ValS.new (Sys.new 0) : ValS Nat) with lock := true },
         false, .error .recursion) := by
  have h := ((claim6_lock_reset_amended Nat (fun _ _ => none) 0 1
    (ValS.new (Sys.new 0)) rfl (by decide) rfl).2 rfl)
  exact ⟨h.1, h.2.2 (fun v _ => some (some (v, 1))) 2 (by decide)⟩

/-- C7 counterexample: a stale `SyncVal` whose recompute mutex is held — the
state another thread observes while one thread is mid-recomputation — is
read: `try_lock()` fails and `.expect(..)` raises the fatal error at once;
the call does not block until the lock is free and then proceed. -/
theorem claim7_lock_contention_counterexample :
    syncValGet (fun v _ => some (some (v, 5))) 0 2
        (⟨0, some 1, true, some (1, 5)⟩ : ValS Nat)
      = (⟨0, some 1, true, some (1, 5)⟩, false, .error .lockFail) := by
  rfl

/-- C7 amended: a thread that finds a `SyncVal` stale and finds the recompute
lock held — whether by another thread or by a reentrant path — fails fatally
with the `try_lock` expect panic and never invokes the closure; the call
never blocks. When the lock is free the closure runs under it and the lock
is released on success, so at most one recomputation is in flight. -/
theorem claim7_lock_contention_amended (T : Type) :
    ∀ (run : RunFn T) (sysId sysV : Nat) (s : ValS T),
      sysId = s.systemId → s.checkVersion ≠ some sysV →
      (s.lock = true →
        syncValGet run sysId sysV s = (s, false, .error .lockFail))
      ∧ (∀ newC, s.lock = false → run sysV s.committed = some newC →
          (syncValGet run sysId sysV s).2.1 = true
          ∧ ((syncValGet run sysId sysV s).1).lock = false
          ∧ ((syncValGet run sysId sysV s).1).checkVersion = some sysV) := by
  intro run sysId sysV s hid hst
  constructor
  · intro hl
    rw [syncValGet, if_neg (by simp [hid]), if_pos hst, if_pos hl]
  · intro newC hl hrun
    have h := syncValGet_stale run sysId sysV s newC hid hst hl hrun
    rw [h.1, h.2]
    exact ⟨rfl, rfl, rfl⟩

/-- C7 amended witness: contention fails fatally; a free lock recomputes. -/
theorem claim7_lock_contention_amended_witness :
    syncValGet (fun v _ => some (some (v, 5))) 0 2
        (⟨0, some 1, true, some (1, 5)⟩ : ValS Nat)
      = (⟨0, some 1, true, some (1, 5)⟩, false, .error .lockFail)
    ∧ (syncValGet (fun v _ => some (some (v, 5))) 0 2
        (⟨0, some 1, false, some (1, 5)⟩ : ValS Nat)).2.1 = true := by
  constructor
  · exact (claim7_lock_contention_amended Nat (fun v _ => some (some (v, 5)))
      0 2 ⟨0, some 1, true, some (1, 5)⟩ rfl (by decide)).1 rfl
  · exact ((claim7_lock_contention_amended Nat (fun v _ => some (some (v, 5)))
      0 2 ⟨0, some 1, false, some (1, 5)⟩ rfl (by decide)).2
      (some (2, 5)) rfl rfl).1

/-- A `Var` inside the whole-graph model. -/
structure GVar (T : Type) where
  version : Nat
  value : T

/-- A memoized node inside the whole-graph model. Its recompute closure has
the canonical dependency-reading shape used throughout the crate's examples:
read the nodes listed in `deps` through `Update::get` in order, then call
`Update::update` with a value computed from what was read. -/
structure GVal (T : Type) where
  deps : List Nat
  compute : List T → T
  checkVersion : Option Nat
  lock : Bool
  committed : Option (Nat × T)

/-- A node of the graph: input cell, single-threaded or thread-safe
memoized node. -/
inductive GNode (T : Type) where
  | var : GVar T → GNode T
  | val : GVal T → GNode T
  | sval : GVal T → GNode T

/-- The whole system: the version clock plus every node created against it
(all carrying this context's id, so id checks are vacuous here and modelled
separately). Nodes are addressed by their index. -/
structure GSystem (T : Type) where
  version : Nat
  nodes : List (GNode T)

/-- A fresh context: version 1, no nodes. -/
def GSystem.new : GSystem T := { version := 1, nodes := [] }

/-- Panics and model-bookkeeping failures of a whole-graph read. -/
inductive GErr where
  | fuel
  | badNode
  | recursion
  | lockFail
  | noValue
  deriving DecidableEq, Repr

/-- The dependency-read loop of a recompute closure: read each listed node
with the reader `g`, accumulating the maximum observed version exactly as
`Update::get` does and collecting the values for the final computation. -/
def readDepsGo (g : GSystem T → Nat → Except GErr (GSystem T × Nat × T)) :
    GSystem T → Option Nat → List T → List Nat →
    Except GErr (GSystem T × Option Nat × List T)
  | sys, acc, vals, [] => .ok (sys, acc, vals.reverse)
  | sys, acc, vals, d :: ds =>
    match g sys d with
    | .error e => .error e
    | .ok (sys1, ver, x) => readDepsGo g sys1 (accVersion acc ver) (x :: vals) ds

/-- The recompute path shared by `Val::get_value` and `SyncVal::get_value`
(after their staleness and lock checks): set the lock, run the closure —
dependency reads through `g`, then the `Update::update` commit decision —
store the new slot, stamp `check_version` with the context version, release
the lock, and `unwrap()` the committed slot. `mk` rebuilds the node variant
being updated. -/
def recomputeVal (g : GSystem T → Nat → Except GErr (GSystem T × Nat × T))
    (mk : GVal T → GNode T) (sys : GSystem T) (i : Nat) (v : GVal T) :
    Except GErr (GSystem T × Nat × T) :=
  let sys1 : GSystem T :=
    { sys with nodes := sys.nodes.set i (mk { v with lock := true }) }
  match readDepsGo g sys1 none [] v.deps with
  | .error e => .error e
  | .ok (sys2, acc, vals) =>
    let u : Update T :=
      { systemVersion := sys2.version
        currentVersion := v.committed.map Prod.fst
        updateVersion := acc
        receiver := v.committed }
    let newC := (u.update fun _ => v.compute vals).1
    let sys3 : GSystem T :=
      { sys2 with nodes := sys2.nodes.set i (mk { v with
          lock := false
          checkVersion := some sys2.version
          committed := newC }) }
    match newC with
    | none => .error .noValue
    | some vx => .ok (sys3, vx.1, vx.2)

/-- A whole-graph node read, fuel-bounded to make the recursion through the
dependency graph well-founded in the model (`fuel` only ever produces the
`fuel` error, never a wrong answer). The three node variants follow
`Var::get_value`, `Val::get_value` and `SyncVal::get_value`: the `sval`
branch re-checks freshness after taking the lock, as the source does. -/
def getValueFuel : Nat → GSystem T → Nat → Except GErr (GSystem T × Nat × T)
  | 0, _, _ => .error .fuel
  | fuel + 1, sys, i =>
    match sys.nodes[i]? with
    | none => .error .badNode
    | some (.var v) => .ok (sys, v.version, v.value)
    | some (.val v) =>
      if v.checkVersion ≠ some sys.version then
        if v.lock then .error .recursion
        else recomputeVal (fun s j => getValueFuel fuel s j) GNode.val sys i v
      else
        match v.committed with
        | none => .error .noValue
        | some vx => .ok (sys, vx.1, vx.2)
    | some (.sval v) =>
      if v.checkVersion ≠ some sys.version then
        if v.lock then .error .lockFail
        else if v.checkVersion ≠ some sys.version then
          recomputeVal (fun s j => getValueFuel fuel s j) GNode.sval sys i v
        else
          match v.committed with
          | none => .error .noValue
          | some vx => .ok (sys, vx.1, vx.2)
      else
        match v.committed with
        | none => .error .noValue
        | some vx => .ok (sys, vx.1, vx.2)

/-- The operations a host can perform on one context: create nodes, open a
mutation window writing some cells, read a node. -/
inductive Op (T : Type) where
  | newVar : T → Op T
  | newVal : List Nat → (List T → T) → Op T
  | newSync : List Nat → (List T → T) → Op T
  | modify : List (Nat × T) → Op T
  | read : Nat → Nat → Op T

/-- Writes performed inside one mutation window: each one stamps the cell
with the window's version (the system version, already advanced). -/
def applyWrites : GSystem T → List (Nat × T) → Option (GSystem T)
  | sys, [] => some sys
  | sys, (i, x) :: ws =>
    match sys.nodes[i]? with
    | some (.var _) =>
      applyWrites
        { sys with nodes := sys.nodes.set i (.var ⟨sys.version, x⟩) } ws
    | _ => none

/-- One operation on the context; `none` models a panic (or an out-of-fuel
read, which aborts the run without touching the state). -/
def step (sys : GSystem T) : Op T → Option (GSystem T)
  | .newVar x =>
    some { sys with nodes := sys.nodes ++ [.var ⟨sys.version, x⟩] }
  | .newVal deps f =>
    some { sys with nodes := sys.nodes ++ [.val ⟨deps, f, none, false, none⟩] }
  | .newSync deps f =>
    some { sys with nodes := sys.nodes ++ [.sval ⟨deps, f, none, false, none⟩] }
  | .modify ws =>
    match versionInc sys.version with
    | none => none
    | some v => applyWrites { sys with version := v } ws
  | .read fuel i =>
    match getValueFuel fuel sys i with
    | .error _ => none
    | .ok (sys', _, _) => some sys'

/-- Run a sequence of operations. -/
def runOps : GSystem T → List (Op T) → Option (GSystem T)
  | sys, [] => some sys
  | sys, op :: ops =>
    match step sys op with
    | none => none
    | some sys' => runOps sys' ops

/-- A committed slot is stamped no later than version `V`. -/
def cOk (V : Nat) : Option (Nat × T) → Bool
  | none => true
  | some (ver, _) => decide (ver ≤ V)

/-- A node's committed version is at most `V`. -/
def nodeOk (V : Nat) : GNode T → Bool
  | .var v => decide (v.version ≤ V)
  | .val v => cOk V v.committed
  | .sval v => cOk V v.committed

/-- The global invariant: no node's committed version exceeds the context's
current version. -/
def GInv (sys : GSystem T) : Prop :=
  ∀ nd ∈ sys.nodes, nodeOk sys.version nd = true

lemma cOk_mono (V W : Nat) (h : V ≤ W) (c : Option (Nat × T))
    (hc : cOk V c = true) : cOk W c = true := by
  rcases c with _ | ⟨ver, x⟩
  · rfl
  · simp only [cOk, decide_eq_true_eq] at hc ⊢
    omega

lemma nodeOk_mono (V W : Nat) (h : V ≤ W) (nd : GNode T)
    (hc : nodeOk V nd = true) : nodeOk W nd = true := by
  cases nd with
  | var v =>
    simp only [nodeOk, decide_eq_true_eq] at hc ⊢
    omega
  | val v => exact cOk_mono V W h v.committed hc
  | sval v => exact cOk_mono V W h v.committed hc

lemma accVersion_bound (acc : Option Nat) (v V : Nat)
    (hacc : ∀ a, acc = some a → a ≤ V) (hv : v ≤ V) :
    ∀ a, accVersion acc v = some a → a ≤ V := by
  intro a ha
  rcases acc with _ | b
  · simp only [accVersion, Option.some.injEq] at ha
    omega
  · have hb := hacc b rfl
    simp only [accVersion] at ha
    split at ha <;> simp only [Option.some.injEq] at ha <;> omega

lemma readDepsGo_ok (g : GSystem T → Nat → Except GErr (GSystem T × Nat × T))
    (Hg : ∀ (sys : GSystem T) (j : Nat) (sys' : GSystem T) (ver : Nat) (x : T),
      g sys j = .ok (sys', ver, x) → GInv sys →
      GInv sys' ∧ sys'.version = sys.version ∧ ver ≤ sys.version) :
    ∀ (ds : List Nat) (sys : GSystem T) (acc : Option Nat) (vals : List T)
      (sys' : GSystem T) (acc' : Option Nat) (vals' : List T),
      readDepsGo g sys acc vals ds = .ok (sys', acc', vals') → GInv sys →
      (∀ a, acc = some a → a ≤ sys.version) →
      GInv sys' ∧ sys'.version = sys.version
        ∧ (∀ a, acc' = some a → a ≤ sys.version) := by
  intro ds
  induction ds with
  | nil =>
    intro sys acc vals sys' acc' vals' h hInv hacc
    simp only [readDepsGo, Except.ok.injEq, Prod.mk.injEq] at h
    obtain ⟨h1, h2, h3⟩ := h
    subst h1 h2
    exact ⟨hInv, rfl, hacc⟩
  | cons d ds ih =>
    intro sys acc vals sys' acc' vals' h hInv hacc
    simp only [readDepsGo] at h
    cases hg : g sys d with
    | error e => rw [hg] at h; exact absurd h (by simp)
    | ok r =>
      obtain ⟨sys1, ver, x⟩ := r
      rw [hg] at h
      obtain ⟨hInv1, hv1, hver⟩ := Hg sys d sys1 ver x hg hInv
      have hacc1 : ∀ a, accVersion acc ver = some a → a ≤ sys1.version := by
        rw [hv1]
        exact accVersion_bound acc ver sys.version hacc hver
      obtain ⟨hInv', hv', hacc'⟩ := ih sys1 (accVersion acc ver) (x :: vals)
        sys' acc' vals' h hInv1 hacc1
      refine ⟨hInv', by omega, ?_⟩
      intro a ha
      have := hacc' a ha
      omega

lemma recomputeVal_ok (g : GSystem T → Nat → Except GErr (GSystem T × Nat × T))
    (Hg : ∀ (sys : GSystem T) (j : Nat) (sys' : GSystem T) (ver : Nat) (x : T),
      g sys j = .ok (sys', ver, x) → GInv sys →
      GInv sys' ∧ sys'.version = sys.version ∧ ver ≤ sys.version)
    (mk : GVal T → GNode T)
    (Hmk : ∀ (V : Nat) (w : GVal T), nodeOk V (mk w) = cOk V w.committed)
    (sys : GSystem T) (i : Nat) (v : GVal T) (sys' : GSystem T) (ver : Nat)
    (x : T) (h : recomputeVal g mk sys i v = .ok (sys', ver, x))
    (hInv : GInv sys) (hc : cOk sys.version v.committed = true) :
    GInv sys' ∧ sys'.version = sys.version ∧ ver ≤ sys.version := by
  simp only [recomputeVal] at h
  have hInv1 : GInv { sys with nodes := sys.nodes.set i (mk { v with lock := true }) } := by
    intro nd hnd
    rcases List.mem_or_eq_of_mem_set hnd with hold | hnew
    · exact hInv nd hold
    · subst hnew
      rw [Hmk]
      exact hc
  cases hrd : readDepsGo g
      { sys with nodes := sys.nodes.set i (mk { v with lock := true }) }
      none [] v.deps with
  | error e => rw [hrd] at h; exact absurd h (by simp)
  | ok r =>
    obtain ⟨sys2, acc, vals⟩ := r
    rw [hrd] at h
    dsimp only at h
    obtain ⟨hInv2, hv2, hacc⟩ := readDepsGo_ok g Hg v.deps
      { sys with nodes := sys.nodes.set i (mk { v with lock := true }) }
      none [] sys2 acc vals hrd hInv1 (by intro a ha; exact Option.noConfusion ha)
    have hv2' : sys2.version = sys.version := hv2
    have huv : acc.getD sys2.version ≤ sys.version := by
      rcases hao : acc with _ | a
      · simp [Option.getD, hv2']
      · have := hacc a hao
        simp only [Option.getD]
        omega
    have hnewC : cOk sys.version
        ((Update.mk sys2.version (v.committed.map Prod.fst) acc
          v.committed).update fun _ => v.compute vals).1 = true := by
      rcases hcm : v.committed with _ | ⟨cv, cx⟩
      · simp only [Update.update, hcm, Option.map_none', cOk, decide_eq_true_eq]
        exact huv
      · rw [hcm] at hc
        simp only [Update.update, hcm, Option.map_some']
        split
        · exact hc
        · simp only [cOk, decide_eq_true_eq]
          exact huv
    cases hC : ((Update.mk sys2.version (v.committed.map Prod.fst) acc
        v.committed).update fun _ => v.compute vals).1 with
    | none => rw [hC] at h; exact absurd h (by simp)
    | some vx =>
      rw [hC] at h
      rw [hC] at hnewC
      simp only [Except.ok.injEq, Prod.mk.injEq] at h
      obtain ⟨h1, h2, h3⟩ := h
      subst h1 h2 h3
      simp only [cOk, decide_eq_true_eq] at hnewC
      refine ⟨?_, hv2', hnewC⟩
      intro nd hnd
      rcases List.mem_or_eq_of_mem_set hnd with hold | hnew
      · exact hInv2 nd hold
      · subst hnew
        rw [Hmk]
        simp only [cOk, decide_eq_true_eq]
        omega

lemma getValueFuel_ok :
    ∀ (fuel : Nat) (sys : GSystem T) (i : Nat) (sys' : GSystem T) (ver : Nat)
      (x : T), getValueFuel fuel sys i = .ok (sys', ver, x) → GInv sys →
      GInv sys' ∧ sys'.version = sys.version ∧ ver ≤ sys.version := by
  intro fuel
  induction fuel with
  | zero =>
    intro sys i sys' ver x h hInv
    exact absurd h (by simp [getValueFuel])
  | succ fuel ih =>
    intro sys i sys' ver x h hInv
    rw [getValueFuel] at h
    cases hn : sys.nodes[i]? with
    | none => rw [hn] at h; exact absurd h (by simp)
    | some nd =>
      rw [hn] at h
      have hnd := hInv nd (List.getElem?_mem hn)
      cases nd with
      | var v =>
        simp only [Except.ok.injEq, Prod.mk.injEq] at h
        obtain ⟨h1, h2, h3⟩ := h
        subst h1 h2 h3
        refine ⟨hInv, rfl, ?_⟩
        simpa [nodeOk] using hnd
      | val v =>
        dsimp only at h
        by_cases hcv : v.checkVersion = some sys.version
        · rw [if_neg (by simp [hcv])] at h
          cases hcm : v.committed with
          | none => rw [hcm] at h; exact absurd h (by simp)
          | some vx =>
            rw [hcm] at h
            simp only [Except.ok.injEq, Prod.mk.injEq] at h
            obtain ⟨h1, h2, h3⟩ := h
            subst h1 h2 h3
            refine ⟨hInv, rfl, ?_⟩
            have hok : cOk sys.version (some vx) = true := by
              rw [← hcm]; exact hnd
            simpa [cOk] using hok
        · rw [if_pos hcv] at h
          cases hlk : v.lock with
          | true => rw [hlk] at h; exact absurd h (by simp)
          | false =>
            rw [hlk] at h
            rw [if_neg (by simp)] at h
            exact recomputeVal_ok (fun s j => getValueFuel fuel s j)
              (fun s2 j s2' ver2 x2 hg hI => ih s2 j s2' ver2 x2 hg hI)
              GNode.val (fun V w => rfl) sys i v sys' ver x h hInv hnd
      | sval v =>
        dsimp only at h
        by_cases hcv : v.checkVersion = some sys.version
        · rw [if_neg (by simp [hcv])] at h
          cases hcm : v.committed with
          | none => rw [hcm] at h; exact absurd h (by simp)
          | some vx =>
            rw [hcm] at h
            simp only [Except.ok.injEq, Prod.mk.injEq] at h
            obtain ⟨h1, h2, h3⟩ := h
            subst h1 h2 h3
            refine ⟨hInv, rfl, ?_⟩
            have hok : cOk sys.version (some vx) = true := by
              rw [← hcm]; exact hnd
            simpa [cOk] using hok
        · rw [if_pos hcv] at h
          cases hlk : v.lock with
          | true => rw [hlk] at h; exact absurd h (by simp)
          | false =>
            rw [hlk] at h
            rw [if_neg (by simp)] at h
            rw [if_pos hcv] at h
            exact recomputeVal_ok (fun s j => getValueFuel fuel s j)
              (fun s2 j s2' ver2 x2 hg hI => ih s2 j s2' ver2 x2 hg hI)
              GNode.sval (fun V w => rfl) sys i v sys' ver x h hInv hnd

lemma applyWrites_ok : ∀ (ws : List (Nat × T)) (sys sys' : GSystem T),
    applyWrites sys ws = some sys' → GInv sys →
    GInv sys' ∧ sys'.version = sys.version := by
  intro ws
  induction ws with
  | nil =>
    intro sys sys' h hInv
    simp only [applyWrites, Option.some.injEq] at h
    subst h
    exact ⟨hInv, rfl⟩
  | cons w ws ih =>
    intro sys sys' h hInv
    obtain ⟨i, x⟩ := w
    simp only [applyWrites] at h
    cases hn : sys.nodes[i]? with
    | none =>
      rw [hn] at h
      exact Option.noConfusion h
    | some nd =>
      rw [hn] at h
      cases nd with
      | var v =>
        dsimp only at h
        have hInv1 :
            GInv { sys with nodes := sys.nodes.set i (.var ⟨sys.version, x⟩) } := by
          intro nd hnd
          rcases List.mem_or_eq_of_mem_set hnd with hold | hnew
          · exact hInv nd hold
          · subst hnew; simp [nodeOk]
        exact ih { sys with nodes := sys.nodes.set i (.var ⟨sys.version, x⟩) }
          sys' h hInv1
      | val v => exact Option.noConfusion h
      | sval v => exact Option.noConfusion h

lemma applyWrites_version : ∀ (ws : List (Nat × T)) (sys sys' : GSystem T),
    applyWrites sys ws = some sys' → sys'.version = sys.version := by
  intro ws
  induction ws with
  | nil =>
    intro sys sys' h
    simp only [applyWrites, Option.some.injEq] at h
    subst h
    rfl
  | cons w ws ih =>
    intro sys sys' h
    obtain ⟨i, x⟩ := w
    simp only [applyWrites] at h
    cases hn : sys.nodes[i]? with
    | none => rw [hn] at h; exact Option.noConfusion h
    | some nd =>
      rw [hn] at h
      cases nd with
      | var v =>
        dsimp only at h
        exact ih { sys with nodes := sys.nodes.set i (.var ⟨sys.version, x⟩) }
          sys' h
      | val v => exact Option.noConfusion h
      | sval v => exact Option.noConfusion h

lemma versionInc_spec (v w : Nat) (h : versionInc v = some w) : w = v + 1 := by
  unfold versionInc at h
  split at h
  · simp only [Option.some.injEq] at h
    omega
  · exact Option.noConfusion h

lemma step_ok (sys sys' : GSystem T) (op : Op T)
    (h : step sys op = some sys') (hInv : GInv sys) : GInv sys' := by
  cases op with
  | newVar x =>
    simp only [step, Option.some.injEq] at h
    subst h
    intro nd hnd
    rcases List.mem_append.mp hnd with hold | hnew
    · exact hInv nd hold
    · rw [List.mem_singleton.mp hnew]
      simp [nodeOk]
  | newVal deps f =>
    simp only [step, Option.some.injEq] at h
    subst h
    intro nd hnd
    rcases List.mem_append.mp hnd with hold | hnew
    · exact hInv nd hold
    · rw [List.mem_singleton.mp hnew]; rfl
  | newSync deps f =>
    simp only [step, Option.some.injEq] at h
    subst h
    intro nd hnd
    rcases List.mem_append.mp hnd with hold | hnew
    · exact hInv nd hold
    · rw [List.mem_singleton.mp hnew]; rfl
  | modify ws =>
    simp only [step] at h
    cases hv : versionInc sys.version with
    | none => rw [hv] at h; exact Option.noConfusion h
    | some v =>
      rw [hv] at h
      dsimp only at h
      have hvv := versionInc_spec sys.version v hv
      have hInvV : GInv { sys with version := v } := by
        intro nd hnd
        exact nodeOk_mono sys.version v (by omega) nd (hInv nd hnd)
      exact (applyWrites_ok ws _ sys' h hInvV).1
  | read fuel i =>
    simp only [step] at h
    cases hg : getValueFuel fuel sys i with
    | error e => rw [hg] at h; exact Option.noConfusion h
    | ok r =>
      obtain ⟨s2, ver, x⟩ := r
      rw [hg] at h
      dsimp only at h
      simp only [Option.some.injEq] at h
      subst h
      exact (getValueFuel_ok fuel sys i s2 ver x hg hInv).1

lemma runOps_ok : ∀ (ops : List (Op T)) (sys sys' : GSystem T),
    runOps sys ops = some sys' → GInv sys → GInv sys' := by
  intro ops
  induction ops with
  | nil =>
    intro sys sys' h hInv
    simp only [runOps, Option.some.injEq] at h
    subst h
    exact hInv
  | cons op ops ih =>
    intro sys sys' h hInv
    simp only [runOps] at h
    cases hs : step sys op with
    | none => rw [hs] at h; exact Option.noConfusion h
    | some sys1 =>
      rw [hs] at h
      exact ih sys1 sys' h (step_ok sys sys1 op hs hInv)

/-- C3: the context's version starts at 1 and each successful mutation
window advances it by exactly 1 (both for the bare context model and for the
whole-graph model), and over any sequence of operations no node's committed
version ever exceeds the context's current version. -/
theorem claim3_version_clock_monotonic (T : Type) :
    (∀ id : Nat, (Sys.new id).version = 1)
    ∧ (GSystem.new : GSystem T).version = 1
    ∧ (∀ s s' : Sys, Sys.modify s = some s' → s'.version = s.version + 1)
    ∧ (∀ (sys sys' : GSystem T) (ws : List (Nat × T)),
        step sys (.modify ws) = some sys' → sys'.version = sys.version + 1)
    ∧ (∀ (ops : List (Op T)) (sys sys' : GSystem T),
        runOps sys ops = some sys' → GInv sys → GInv sys') := by
  refine ⟨fun id => rfl, rfl, ?_, ?_, runOps_ok⟩
  · intro s s' h
    exact (modify_spec s s' h).2
  · intro sys sys' ws h
    simp only [step] at h
    cases hv : versionInc sys.version with
    | none => rw [hv] at h; exact Option.noConfusion h
    | some v =>
      rw [hv] at h
      dsimp only at h
      have hvv := versionInc_spec sys.version v hv
      have := applyWrites_version ws _ sys' h
      simp only at this
      omega

/-- C3 witness: a fresh graph, one cell, one mutation window. -/
theorem claim3_version_clock_monotonic_witness :
    ((⟨0, 2⟩ : Sys).version = (Sys.new 0).version + 1)
    ∧ GInv ({ version := 2, nodes := [GNode.var ⟨2, 7⟩] } : GSystem Nat) := by
  constructor
  · exact (claim3_version_clock_monotonic Nat).2.2.1 (Sys.new 0) ⟨0, 2⟩ (by decide)
  · exact (claim3_version_clock_monotonic Nat).2.2.2.2
      [Op.newVar 7, Op.modify [(0, 7)]] GSystem.new
      { version := 2, nodes := [GNode.var ⟨2, 7⟩] } rfl
      (fun nd hnd => absurd hnd (List.not_mem_nil nd))

/-- A two-node graph in which each single-threaded memoized node reads the
other: a transitive dependency cycle through `Val` nodes. -/
def cycleSys : GSystem Nat :=
  { version := 1
    nodes := [GNode.val ⟨[1], fun _ => 0, none, false, none⟩,
              GNode.val ⟨[0], fun _ => 0, none, false, none⟩] }

/-- A two-node graph in which each thread-safe memoized node reads the
other: a transitive dependency cycle through `SyncVal` nodes. -/
def cycleSyncSys : GSystem Nat :=
  { version := 1
    nodes := [GNode.sval ⟨[1], fun _ => 0, none, false, none⟩,
              GNode.sval ⟨[0], fun _ => 0, none, false, none⟩] }

/-- C5: a memoized node whose recompute closure reads the node itself fails
fatally whatever fuel is available — it neither loops nor returns a value:
a `Val` with the `"Val update recursion"` panic, a `SyncVal` with the
`try_lock().expect(..)` panic, its reentrancy condition; and likewise a
two-node transitive cycle of either flavour. -/
theorem claim5_cycle_detected (T : Type) :
    (∀ (sys : GSystem T) (i : Nat) (v : GVal T) (rest : List Nat) (n : Nat),
        sys.nodes[i]? = some (.val v) → v.lock = false →
        v.checkVersion ≠ some sys.version → v.deps = i :: rest →
        getValueFuel (n + 2) sys i = .error .recursion)
    ∧ (∀ (sys : GSystem T) (i : Nat) (v : GVal T) (rest : List Nat) (n : Nat),
        sys.nodes[i]? = some (.sval v) → v.lock = false →
        v.checkVersion ≠ some sys.version → v.deps = i :: rest →
        getValueFuel (n + 2) sys i = .error .lockFail)
    ∧ (∀ n : Nat, getValueFuel (n + 3) cycleSys 0 = .error .recursion)
    ∧ (∀ n : Nat, getValueFuel (n + 3) cycleSyncSys 0 = .error .lockFail) := by
  refine ⟨?_, ?_, ?_, ?_⟩
  · intro sys i v rest n hn hlk hst hdeps
    obtain ⟨dps, cmp, cv0, lk0, cm0⟩ := v
    simp only at hn hlk hst hdeps
    subst hdeps hlk
    have hlen : i < sys.nodes.length := (List.getElem?_eq_some.mp hn).1
    have hn1 : (sys.nodes.set i (GNode.val ⟨i :: rest, cmp, cv0, true, cm0⟩))[i]?
        = some (GNode.val ⟨i :: rest, cmp, cv0, true, cm0⟩) :=
      List.getElem?_set_eq_of_lt _ (by simpa using hlen)
    have hinner : getValueFuel (n + 1)
        { sys with
          nodes := sys.nodes.set i (GNode.val ⟨i :: rest, cmp, cv0, true, cm0⟩) }
        i = .error .recursion := by
      rw [getValueFuel]
      dsimp only
      rw [hn1]
      dsimp only
      rw [if_pos hst]
      rfl
    show getValueFuel (n + 1 + 1) sys i = .error .recursion
    rw [getValueFuel, hn]
    dsimp only
    rw [if_pos hst, if_neg Bool.false_ne_true]
    simp [recomputeVal, readDepsGo, hinner]
  · intro sys i v rest n hn hlk hst hdeps
    obtain ⟨dps, cmp, cv0, lk0, cm0⟩ := v
    simp only at hn hlk hst hdeps
    subst hdeps hlk
    have hlen : i < sys.nodes.length := (List.getElem?_eq_some.mp hn).1
    have hn1 : (sys.nodes.set i (GNode.sval ⟨i :: rest, cmp, cv0, true, cm0⟩))[i]?
        = some (GNode.sval ⟨i :: rest, cmp, cv0, true, cm0⟩) :=
      List.getElem?_set_eq_of_lt _ (by simpa using hlen)
    have hinner : getValueFuel (n + 1)
        { sys with
          nodes := sys.nodes.set i (GNode.sval ⟨i :: rest, cmp, cv0, true, cm0⟩) }
        i = .error .lockFail := by
      rw [getValueFuel]
      dsimp only
      rw [hn1]
      dsimp only
      rw [if_pos hst]
      rfl
    show getValueFuel (n + 1 + 1) sys i = .error .lockFail
    rw [getValueFuel, hn]
    dsimp only
    rw [if_pos hst, if_neg Bool.false_ne_true, if_pos hst]
    simp [recomputeVal, readDepsGo, hinner]
  · intro n
    have h0 : getValueFuel (n + 1)
        { version := 1
          nodes := [GNode.val ⟨[1], fun _ => (0 : Nat), none, true, none⟩,
                    GNode.val ⟨[0], fun _ => (0 : Nat), none, true, none⟩] } 0
        = .error .recursion := by
      rw [getValueFuel]
      simp
    have h1 : getValueFuel (n + 2)
        { version := 1
          nodes := [GNode.val ⟨[1], fun _ => (0 : Nat), none, true, none⟩,
                    GNode.val ⟨[0], fun _ => (0 : Nat), none, false, none⟩] } 1
        = .error .recursion := by
      show getValueFuel (n + 1 + 1) _ 1 = _
      rw [getValueFuel]
      simp [recomputeVal, readDepsGo, h0]
    show getValueFuel (n + 2 + 1) cycleSys 0 = .error .recursion
    rw [getValueFuel]
    simp [cycleSys, recomputeVal, readDepsGo, h1]
  · intro n
    have h0 : getValueFuel (n + 1)
        { version := 1
          nodes := [GNode.sval ⟨[1], fun _ => (0 : Nat), none, true, none⟩,
                    GNode.sval ⟨[0], fun _ => (0 : Nat), none, true, none⟩] } 0
        = .error .lockFail := by
      rw [getValueFuel]
      simp
    have h1 : getValueFuel (n + 2)
        { version := 1
          nodes := [GNode.sval ⟨[1], fun _ => (0 : Nat), none, true, none⟩,
                    GNode.sval ⟨[0], fun _ => (0 : Nat), none, false, none⟩] } 1
        = .error .lockFail := by
      show getValueFuel (n + 1 + 1) _ 1 = _
      rw [getValueFuel]
      simp [recomputeVal, readDepsGo, h0]
    show getValueFuel (n + 2 + 1) cycleSyncSys 0 = .error .lockFail
    rw [getValueFuel]
    simp [cycleSyncSys, recomputeVal, readDepsGo, h1]

/-- C5 witness: a `Val` and a `SyncVal` whose dependency list starts with
the node itself. -/
theorem claim5_cycle_detected_witness :
    getValueFuel 2
      ({ version := 1
         nodes := [GNode.val ⟨[0], fun _ => 0, none, false, none⟩] } : GSystem Nat)
      0 = .error .recursion
    ∧ getValueFuel 2
      ({ version := 1
         nodes := [GNode.sval ⟨[0], fun _ => 0, none, false, none⟩] } : GSystem Nat)
      0 = .error .lockFail :=
  ⟨(claim5_cycle_detected Nat).1
    { version := 1
      nodes := [GNode.val ⟨[0], fun _ => 0, none, false, none⟩] }
    0 ⟨[0], fun _ => 0, none, false, none⟩ [] 0 rfl rfl (by decide) rfl,
  (claim5_cycle_detected Nat).2.1
    { version := 1
      nodes := [GNode.sval ⟨[0], fun _ => 0, none, false, none⟩] }
    0 ⟨[0], fun _ => 0, none, false, none⟩ [] 0 rfl rfl (by decide) rfl⟩
